import Mathlib

/- Verification of the executor core of the pasts crate (src/executor.rs).

The development shallowly embeds both executor strategies:
the cooperative (wasm / no-std) strategy built on a growable task-slot
table, and the threaded (std) strategy built on an atomic ready flag, a
mutex and a condition variable.  Futures are modelled extensionally as a
countdown: a future that answers Pending on its first k polls and Ready
with its value on poll k+1. -/

namespace Pasts

/-- Model of an async operation: pending is the number of polls that
still answer Pending before the operation completes with value. -/
structure MFuture (α : Type) where
  pending : Nat
  value : α
  deriving DecidableEq, Repr

/-- Task enum of the cooperative executor (executor.rs lines 31 to 36):
a slot is either a pinned future, a type-erased output, or empty. -/
inductive Task (α : Type) where
  | future : MFuture α → Task α
  | output : α → Task α
  | empty : Task α
  deriving DecidableEq, Repr

/-- Recognizer for the Empty arm, used by the first-fit slot scan. -/
def Task.isEmpty {α : Type} : Task α → Bool
  | .empty => true
  | _ => false

/-- Body of the cooperative wake sweep at one slot (executor.rs lines
103 to 109).  Task::take first swaps Empty into the slot and hands the
old task to the loop body.  If the taken task is a future it is polled
once: on completion the async wrapper built in spawn (executor.rs lines
225 to 231) stores the output back into this very slot, and on Pending
the loop body stores the future back.  Any other taken task, including
a pending output, is dropped with the slot left Empty, because only the
Future arm is ever stored back. -/
def pollStep {α : Type} : Task α → Task α
  | .future f =>
    if f.pending = 0 then .output f.value
    else .future ⟨f.pending - 1, f.value⟩
  | _ => .empty

/-- Exec::wake, cooperative form (executor.rs lines 92 to 111): the
table length is read once, then the sweep body runs at each index of
0..len in ascending order.  Each iteration reads and writes only the
slot at its own index. -/
def wakeSweep {α : Type} (tasks : List (Task α)) : List (Task α) :=
  (List.range tasks.length).foldl
    (fun ts i => ts.set i (pollStep (ts.getD i .empty))) tasks

/-- Exec::find_handle (executor.rs lines 136 to 145): the index of the
first Empty slot, or the table length when no slot is Empty. -/
def find_handle {α : Type} : List (Task α) → Nat
  | [] => 0
  | t :: ts => if t.isEmpty then 0 else find_handle ts + 1

/-- Vec::resize_with with Task::Empty filler, as called by the
cooperative Exec::execute (executor.rs line 155): the vector is resized
to exactly n entries, truncating when it is longer and padding with
Empty when it is shorter. -/
def resizeWith {α : Type} (ts : List (Task α)) (n : Nat) : List (Task α) :=
  if n ≤ ts.length then ts.take n
  else ts ++ List.replicate (n - ts.length) .empty

/-- Exec::execute, cooperative form (executor.rs lines 147 to 161):
resize the table to handle+1 slots, store the new future at index
handle, then run one wake sweep. -/
def coopExecute {α : Type} (ts : List (Task α)) (handle : Nat)
    (f : MFuture α) : List (Task α) :=
  wakeSweep ((resizeWith ts (handle + 1)).set handle (.future f))

/-- spawn, cooperative branch (executor.rs lines 213 to 236): pick the
handle with find_handle, then run the cooperative execute.  Returns the
handle stored in the JoinHandle together with the new table. -/
def coopSpawn {α : Type} (ts : List (Task α)) (f : MFuture α) :
    Nat × List (Task α) :=
  (find_handle ts, coopExecute ts (find_handle ts) f)

/-- JoinHandle::poll, cooperative branch (executor.rs lines 280 to
298): Task::take swaps Empty into the slot at the stored handle; when
the taken task is an output, the value is decoded and returned Ready,
otherwise the poll answers Pending.  In both cases the slot has been
left Empty by the take.  The first component some v models
Poll::Ready(v) and none models Poll::Pending.  In the real program the
handle is always in range; getD and set are total stand-ins for the
panicking index. -/
def joinPollCoop {α : Type} (ts : List (Task α)) (handle : Nat) :
    Option α × List (Task α) :=
  match ts.getD handle .empty with
  | .output v => (some v, ts.set handle .empty)
  | _ => (none, ts.set handle .empty)

/-- Shared cell of a threaded JoinHandle (executor.rs lines 198 and
246): an optional delivered output and an optional saved wake
capability, guarded by one mutex.  Wake capabilities are modelled
opaquely by an arbitrary type ω. -/
structure SharedCell (α : Type) (ω : Type) where
  output : Option α
  waker : Option ω
  deriving DecidableEq, Repr

/-- JoinHandle::poll, threaded branch (executor.rs lines 269 to 278):
take the output out of the cell if present and answer Ready with it,
otherwise store the wake capability of the polling context in the cell
and answer Pending.  The take clears only the output field. -/
def joinPollThreaded {α ω : Type} (c : SharedCell α ω) (w : ω) :
    Option α × SharedCell α ω :=
  match c.output with
  | some v => (some v, { output := none, waker := c.waker })
  | none => (none, { output := none, waker := some w })

/-- Completion step of the worker thread spawned by the threaded spawn
(executor.rs lines 201 to 208): store the output in the cell and take
the saved wake capability, invoking it when present.  The second
component is the capability that gets invoked, none when no awaiting
poll had registered one. -/
def workerFinish {α ω : Type} (c : SharedCell α ω) (v : α) :
    SharedCell α ω × Option ω :=
  ({ output := some v, waker := none }, c.waker)

/-- Threaded executor data (executor.rs lines 48 to 64): the atomic
ready flag, called state in the source.  The mutex and the condition
variable carry no data; the notifies field instruments how often
cvar.notify_one has been called, the observable notification
behaviour. -/
structure Exec where
  state : Bool
  notifies : Nat
  deriving DecidableEq, Repr

/-- Exec::new, threaded form (executor.rs lines 67 to 74): the ready
flag starts out true.  No notification has happened yet. -/
def Exec.new : Exec := { state := true, notifies := 0 }

/-- Exec::wake, threaded form (executor.rs lines 83 to 90):
compare_and_swap(false, true) on the flag; when the old value was false
the swap succeeded and cvar.notify_one is called, otherwise nothing
happens. -/
def Exec.wake (s : Exec) : Exec :=
  if s.state then s else { state := true, notifies := s.notifies + 1 }

/-- Observable event of a run of the threaded execute loop: a poll of
the root future (recording whether it answered Ready), or the thread
blocking in cvar.wait. -/
inductive ExecEvent where
  | polled : Bool → ExecEvent
  | parked : ExecEvent
  deriving DecidableEq, Repr

/-- The loop of the threaded Exec::execute (executor.rs lines 122 to
132), with the future unfolded to its countdown: poll; on Ready break
with the value; on Pending lock the mutex and consume the flag with
compare_and_swap(true, false), calling cvar.wait whenever the flag is
false until a wake sets it, then loop.  Wakes are modelled as arriving
exactly when the loop waits for one, so after the first iteration the
flag seen at the consume point is false; the trace records each poll
and each blocking wait. -/
def execLoop {α : Type} (v : α) : Nat → Bool → α × List ExecEvent
  | 0, _ => (v, [.polled true])
  | n + 1, st =>
    let rest := execLoop v n false
    (rest.1, .polled false :: (if st then rest.2 else .parked :: rest.2))

/-- Exec::execute, threaded form (executor.rs lines 113 to 133), run
on a future together with the current ready flag. -/
def Exec.execute {α : Type} (f : MFuture α) (st : Bool) :
    α × List ExecEvent :=
  execLoop f.value f.pending st

/-- Number of polls recorded in a trace of the execute loop. -/
def pollCount (tr : List ExecEvent) : Nat :=
  tr.countP fun e => match e with | .polled _ => true | _ => false

/-- Program counter of the executor thread inside the park phase of
Exec::execute (executor.rs lines 122 to 132).  polling: the poll of
the future just answered Pending, the mutex is about to be locked.
lockedCAS: the mutex is held, compare_and_swap(true, false) is next.
preWait: the swap saw false, the thread is committed to cvar.wait but
has not yet blocked.  waiting: blocked inside cvar.wait with the mutex
released.  repoll: the swap saw true and consumed it, the loop goes
back to polling the future. -/
inductive ELoc where
  | polling
  | lockedCAS
  | preWait
  | waiting
  | repoll
  deriving DecidableEq, Repr

/-- Program counter of a concurrent call of the threaded Exec::wake
(executor.rs lines 83 to 90).  idle: no wake in progress.  casStep:
about to compare_and_swap(false, true).  notifyStep: the swap
succeeded, cvar.notify_one is next.  The waker never touches the
mutex, so the mutex held by the executor does not order these steps. -/
inductive WLoc where
  | idle
  | casStep
  | notifyStep
  deriving DecidableEq, Repr

/-- Joint state of the flag, the executor thread and the waker for the
interleaving semantics of the park phase. -/
structure ParkState where
  state : Bool
  eloc : ELoc
  wloc : WLoc
  deriving DecidableEq, Repr

/-- Scheduler actions: let the executor thread take its next atomic
step, let the wake call in progress take its next step, or start a
fresh wake invocation when none is in progress. -/
inductive Act where
  | execStep
  | wakeStep
  | invokeWake
  deriving DecidableEq, Repr

/-- One interleaved atomic step.  cvar.wait atomically releases the
mutex and blocks, and cvar.notify_one wakes the executor exactly when
it is already blocked in cvar.wait; a notification arriving while the
executor is between its flag check and the wait call is lost, as for a
condition variable with no waiter. -/
def step (s : ParkState) : Act → ParkState
  | .invokeWake =>
    match s.wloc with
    | .idle => { s with wloc := .casStep }
    | _ => s
  | .wakeStep =>
    match s.wloc with
    | .idle => s
    | .casStep =>
      if s.state then { s with wloc := .idle }
      else { s with state := true, wloc := .notifyStep }
    | .notifyStep =>
      match s.eloc with
      | .waiting => { s with eloc := .lockedCAS, wloc := .idle }
      | _ => { s with wloc := .idle }
  | .execStep =>
    match s.eloc with
    | .polling => { s with eloc := .lockedCAS }
    | .lockedCAS =>
      if s.state then { s with state := false, eloc := .repoll }
      else { s with eloc := .preWait }
    | .preWait => { s with eloc := .waiting }
    | .waiting => s
    | .repoll => s

/-- Run a whole schedule of interleaved steps. -/
def run (s : ParkState) (sched : List Act) : ParkState :=
  sched.foldl step s

/-- Reading at the index right after a prefix returns the element
there. -/
theorem getD_append_len {α : Type} (pre : List (Task α)) (t : Task α)
    (rest : List (Task α)) (d : Task α) :
    (pre ++ t :: rest).getD pre.length d = t := by
  induction pre with
  | nil => rfl
  | cons p ps ih => simpa using ih

/-- Writing at the index right after a prefix replaces the element
there. -/
theorem set_append_len {α : Type} (pre : List (Task α)) (t : Task α)
    (rest : List (Task α)) (x : Task α) :
    (pre ++ t :: rest).set pre.length x = pre ++ x :: rest := by
  induction pre with
  | nil => rfl
  | cons p ps ih => simp [ih]

/-- The sweep loop, started after an already processed prefix, applies
the per-slot body to every remaining slot in ascending order. -/
theorem sweep_go {α : Type} (suf pre : List (Task α)) :
    (List.range' pre.length suf.length).foldl
      (fun ts i => ts.set i (pollStep (ts.getD i .empty))) (pre ++ suf)
      = pre ++ suf.map pollStep := by
  induction suf generalizing pre with
  | nil => simp
  | cons t rest ih =>
    have h1 : (pre ++ t :: rest).getD pre.length Task.empty = t :=
      getD_append_len pre t rest Task.empty
    have h2 : (pre ++ t :: rest).set pre.length (pollStep t)
        = pre ++ pollStep t :: rest := set_append_len pre t rest (pollStep t)
    have h3 := ih (pre ++ [pollStep t])
    simp only [List.length_append, List.length_cons, List.length_nil] at h3
    simp only [List.length_cons, List.range'_succ, List.foldl_cons, h1, h2]
    simpa using h3

/-- The wake sweep is the per-slot body applied to every slot. -/
theorem wakeSweep_eq_map {α : Type} (tasks : List (Task α)) :
    wakeSweep tasks = tasks.map pollStep := by
  have h := sweep_go tasks ([] : List (Task α))
  simpa [wakeSweep, List.range_eq_range'] using h

/-- Overwriting a slot with Empty leaves Empty readable at that index,
whether or not the index is in range. -/
theorem getD_set_self {α : Type} (l : List (Task α)) (n : Nat) :
    (l.set n Task.empty).getD n Task.empty = Task.empty := by
  induction l generalizing n with
  | nil => simp
  | cons t ts ih =>
    cases n with
    | zero => simp
    | succ m => simpa using ih m

/-- The first-fit scan never stops past an Empty slot: every slot
strictly before the returned index is occupied. -/
theorem find_handle_not_empty {α : Type} (ts : List (Task α)) (i : Nat)
    (h : i < find_handle ts) : (ts.getD i .empty).isEmpty = false := by
  induction ts generalizing i with
  | nil => simp [find_handle] at h
  | cons t ts ih =>
    by_cases he : t.isEmpty
    · simp [find_handle, he] at h
    · have hf : t.isEmpty = false := Bool.not_eq_true _ |>.mp he
      cases i with
      | zero => simpa using hf
      | succ j =>
        have hj : j < find_handle ts := by
          simp only [find_handle, hf, Bool.false_eq_true, if_false] at h
          omega
        simpa using ih j hj

/-- The first-fit scan returns an index no larger than the table
length. -/
theorem find_handle_le_length {α : Type} (ts : List (Task α)) :
    find_handle ts ≤ ts.length := by
  induction ts with
  | nil => simp [find_handle]
  | cons t ts ih =>
    by_cases he : t.isEmpty
    · simp [find_handle, he]
    · have hf : t.isEmpty = false := Bool.not_eq_true _ |>.mp he
      simp only [find_handle, hf, Bool.false_eq_true, if_false, List.length_cons]
      omega

/-- When the first-fit scan returns an in-range index, that slot is
Empty. -/
theorem find_handle_empty_at {α : Type} (ts : List (Task α))
    (h : find_handle ts < ts.length) :
    (ts.getD (find_handle ts) .empty).isEmpty = true := by
  induction ts with
  | nil => simp at h
  | cons t ts ih =>
    by_cases he : t.isEmpty
    · simp [find_handle, he]
    · have hf : t.isEmpty = false := Bool.not_eq_true _ |>.mp he
      simp only [find_handle, hf, Bool.false_eq_true, if_false,
        List.length_cons] at h
      simpa [find_handle, hf] using ih (by omega)

/-- When no slot is Empty, the first-fit scan returns the table
length. -/
theorem find_handle_full {α : Type} (ts : List (Task α))
    (h : ∀ i, i < ts.length → (ts.getD i .empty).isEmpty = false) :
    find_handle ts = ts.length := by
  rcases Nat.lt_or_ge (find_handle ts) ts.length with hlt | hge
  · have h1 := find_handle_empty_at ts hlt
    have h2 := h _ hlt
    rw [h1] at h2
    cases h2
  · exact Nat.le_antisymm (find_handle_le_length ts) hge

/-- Structure of a full run of the threaded execute loop: the value of
the future is returned, and the trace is a list of pending polls and
parks closed by the single Ready poll, after which nothing further
happens. -/
theorem execLoop_spec {α : Type} (v : α) :
    ∀ (n : Nat) (st : Bool),
      (execLoop v n st).1 = v ∧
      ∃ pre, (execLoop v n st).2 = pre ++ [ExecEvent.polled true] ∧
        pollCount pre = n ∧ ∀ e ∈ pre, e ≠ ExecEvent.polled true := by
  intro n
  induction n with
  | zero =>
    intro st
    exact ⟨rfl, [], rfl, rfl, by simp⟩
  | succ m ih =>
    intro st
    obtain ⟨h1, pre, h2, h3, h4⟩ := ih false
    refine ⟨h1, ?_⟩
    cases st
    · refine ⟨ExecEvent.polled false :: ExecEvent.parked :: pre, ?_, ?_, ?_⟩
      · simp [execLoop, h2]
      · simp [pollCount, List.countP_cons] at h3 ⊢
        omega
      · intro e he
        simp only [List.mem_cons] at he
        rcases he with rfl | rfl | hm
        · simp
        · simp
        · exact h4 e hm
    · refine ⟨ExecEvent.polled false :: pre, ?_, ?_, ?_⟩
      · simp [execLoop, h2]
      · simp [pollCount, List.countP_cons] at h3 ⊢
        omega
      · intro e he
        simp only [List.mem_cons] at he
        rcases he with rfl | hm
        · simp
        · exact h4 e hm

/-- Applying the threaded wake twice in a row is the same as applying
it once. -/
theorem wake_wake (s : Exec) : Exec.wake (Exec.wake s) = Exec.wake s := by
  by_cases h : s.state <;> simp [Exec.wake, h]

/-- A state in which the executor is blocked in cvar.wait while the
flag is already true is preserved by every single interleaved step:
the flag stays true, so a wake in progress or a fresh wake invocation
never reaches cvar.notify_one, and nothing else can unblock the
executor. -/
theorem step_preserves_stuck (s : ParkState) (a : Act)
    (h1 : s.state = true) (h2 : s.eloc = ELoc.waiting)
    (h3 : s.wloc ≠ WLoc.notifyStep) :
    (step s a).state = true ∧ (step s a).eloc = ELoc.waiting ∧
      (step s a).wloc ≠ WLoc.notifyStep := by
  cases a with
  | invokeWake =>
    cases hw : s.wloc with
    | idle => simp [step, hw, h1, h2]
    | casStep => simp [step, hw, h1, h2]
    | notifyStep => exact absurd hw h3
  | wakeStep =>
    cases hw : s.wloc with
    | idle => simp [step, hw, h1, h2]
    | casStep => simp [step, hw, h1, h2]
    | notifyStep => exact absurd hw h3
  | execStep =>
    have hs : step s .execStep = s := by
      simp [step, h2]
    rw [hs]
    exact ⟨h1, h2, h3⟩

/-- Once the executor is blocked in cvar.wait with the flag already
true, every schedule of further steps, including arbitrarily many new
wake invocations, leaves it blocked. -/
theorem waiting_forever (sched : List Act) :
    ∀ (s : ParkState), s.state = true → s.eloc = ELoc.waiting →
      s.wloc ≠ WLoc.notifyStep → (run s sched).eloc = ELoc.waiting := by
  induction sched with
  | nil => intro s h1 h2 h3; exact h2
  | cons a rest ih =>
    intro s h1 h2 h3
    obtain ⟨g1, g2, g3⟩ := step_preserves_stuck s a h1 h2 h3
    exact ih (step s a) g1 g2 g3

/-- C1: the spec claims that in every interleaving where wake runs
concurrently with the park transition of the execute loop, the parked
thread resumes and re-polls at least once before sleeping again, and
that no wake invocation is ever lost.  The code violates this.  In the
schedule below the executor, after a Pending poll, locks the mutex and
sees the flag false; before it reaches cvar.wait the concurrent wake
sets the flag and calls cvar.notify_one, which finds no waiter because
the waker never takes the mutex, so the notification is lost; the
executor then blocks in cvar.wait.  From the resulting state every
further schedule leaves the executor blocked: the flag is already
true, so every later wake skips cvar.notify_one, and the thread never
re-polls. -/
theorem c1_wake_racing_park_is_lost :
    run { state := false, eloc := .polling, wloc := .casStep }
        [.execStep, .execStep, .wakeStep, .wakeStep, .execStep]
      = { state := true, eloc := .waiting, wloc := .idle } ∧
    ∀ sched : List Act,
      (run { state := true, eloc := .waiting, wloc := .idle } sched).eloc
        = ELoc.waiting := by
  constructor
  · rfl
  · intro sched
    exact waiting_forever sched _ rfl rfl (by decide)

/-- C2: a JoinHandle delivers the exact output of its operation at
most once, in both forms.  Threaded form: a poll that finds the cell
holding an output answers Ready with exactly that value and clears the
cell, and a subsequent poll answers Pending.  Cooperative form: a poll
that finds the slot holding an output answers Ready with exactly that
value and clears the slot to Empty, and a subsequent poll answers
Pending. -/
theorem c2_join_handle_delivers_exactly_once :
    (∀ (α ω : Type) (c : SharedCell α ω) (w : ω) (v : α),
        c.output = some v →
        joinPollThreaded c w
          = (some v, { output := none, waker := c.waker })) ∧
    (∀ (α ω : Type) (c : SharedCell α ω) (w1 w2 : ω) (v : α),
        c.output = some v →
        (joinPollThreaded (joinPollThreaded c w1).2 w2).1 = none) ∧
    (∀ (α : Type) (ts : List (Task α)) (k : Nat) (v : α),
        ts.getD k .empty = .output v →
        joinPollCoop ts k = (some v, ts.set k .empty)) ∧
    (∀ (α : Type) (ts : List (Task α)) (k : Nat) (v : α),
        ts.getD k .empty = .output v →
        (joinPollCoop (joinPollCoop ts k).2 k).1 = none) := by
  refine ⟨?_, ?_, ?_, ?_⟩
  · intro α ω c w v h
    simp [joinPollThreaded, h]
  · intro α ω c w1 w2 v h
    simp [joinPollThreaded, h]
  · intro α ts k v h
    unfold joinPollCoop
    rw [h]
  · intro α ts k v h
    have h1 : (joinPollCoop ts k).2 = ts.set k Task.empty := by
      unfold joinPollCoop
      rw [h]
    rw [h1]
    unfold joinPollCoop
    rw [getD_set_self]

/-- Witness for C2 at concrete inputs. -/
theorem c2_join_handle_delivers_exactly_once_witness :
    joinPollThreaded
        ({ output := some 3, waker := none } : SharedCell Nat Nat) 0
      = (some 3, { output := none, waker := none }) ∧
    joinPollCoop [Task.output (4 : Nat)] 0 = (some 4, [Task.empty]) ∧
    (joinPollCoop (joinPollCoop [Task.output (4 : Nat)] 0).2 0).1 = none :=
  ⟨c2_join_handle_delivers_exactly_once.1 Nat Nat _ 0 3 rfl,
   c2_join_handle_delivers_exactly_once.2.2.1 Nat [Task.output 4] 0 4 rfl,
   c2_join_handle_delivers_exactly_once.2.2.2 Nat [Task.output 4] 0 4 rfl⟩

/-- C3: the claimed slot discipline fails on the code.  The claim says
that polling a cooperative JoinHandle whose slot still holds the
operation answers Pending and leaves the operation in place.  The code
answers Pending, but Task::take has already swapped Empty into the
slot and only the Output arm is ever used, so the still-pending
operation is dropped and the slot is left Empty, a transition
HoldingOperation to Empty that the claim excludes. -/
theorem c3_poll_drops_pending_operation :
    joinPollCoop [Task.future ⟨2, (7 : Nat)⟩] 0 = (none, [Task.empty]) := rfl

/-- C4: the claimed sweep behaviour fails on the code for slots that
hold a delivered output.  The sweep body takes each task out of its
slot, leaving Empty, and stores something back only in the Future arm:
a pending future is restored and a completed one is replaced by its
output, as claimed, but a slot that already held an output is left
Empty and the output is discarded instead of being left unchanged. -/
theorem c4_sweep_discards_stored_output :
    wakeSweep [Task.output (7 : Nat), Task.future ⟨2, 9⟩]
      = [Task.empty, Task.future ⟨1, 9⟩] := rfl

/-- C5: the claimed frame condition of slot reuse fails on the code.
Reusing the first Empty slot at index 1 of a 3-slot table calls
Vec::resize_with with new length 2, which truncates the table and
drops the live operation in slot 2: the table length decreases from 3
to 2, against the claim that a reusing spawn leaves the length and all
other slots unchanged. -/
theorem c5_slot_reuse_truncates_table :
    coopSpawn [Task.future ⟨5, (1 : Nat)⟩, Task.empty, Task.future ⟨5, 2⟩]
        ⟨5, 3⟩
      = (1, [Task.future ⟨4, 1⟩, Task.future ⟨4, 3⟩]) ∧
    (coopSpawn [Task.future ⟨5, (1 : Nat)⟩, Task.empty, Task.future ⟨5, 2⟩]
        ⟨5, 3⟩).2.length
      < [Task.future ⟨5, (1 : Nat)⟩, Task.empty,
         Task.future ⟨5, 2⟩].length := by
  exact ⟨rfl, by decide⟩

/-- C6: for a future that answers Pending on its first n polls and
Ready with v on poll n+1, the threaded Exec::execute returns exactly
v; its trace consists of polls and parks, contains n+1 polls, and ends
at the first Ready poll, so the future is never polled again after
answering Ready. -/
theorem c6_execute_runs_to_first_ready :
    ∀ (α : Type) (n : Nat) (v : α),
      (Exec.execute ⟨n, v⟩ true).1 = v ∧
      pollCount (Exec.execute ⟨n, v⟩ true).2 = n + 1 ∧
      ∃ pre, (Exec.execute ⟨n, v⟩ true).2 = pre ++ [ExecEvent.polled true] ∧
        pollCount pre = n ∧ ∀ e ∈ pre, e ≠ ExecEvent.polled true := by
  intro α n v
  obtain ⟨h1, pre, h2, h3, h4⟩ := execLoop_spec v n true
  refine ⟨h1, ?_, pre, h2, h3, h4⟩
  show pollCount (execLoop v n true).2 = n + 1
  rw [h2]
  simp [pollCount, List.countP_append, List.countP_cons] at h3 ⊢
  omega

/-- Witness for C6 at a concrete future. -/
theorem c6_execute_runs_to_first_ready_witness :
    (Exec.execute ⟨2, (7 : Nat)⟩ true).1 = 7 :=
  (c6_execute_runs_to_first_ready Nat 2 7).1

/-- C7: cooperative spawn chooses its slot by first-fit.  Every slot
before the chosen index is occupied; when the chosen index is in
range, that slot is Empty; when no slot is Empty the chosen index is
the table length; and the handle returned by spawn is exactly this
index.  In the concrete scenario, after spawning A and B and consuming
the output of A, the next spawn is assigned the former index of A. -/
theorem c7_spawn_first_fit_reuse :
    (∀ (α : Type) (ts : List (Task α)) (i : Nat), i < find_handle ts →
        (ts.getD i .empty).isEmpty = false) ∧
    (∀ (α : Type) (ts : List (Task α)), find_handle ts < ts.length →
        (ts.getD (find_handle ts) .empty).isEmpty = true) ∧
    (∀ (α : Type) (ts : List (Task α)),
        (∀ i, i < ts.length → (ts.getD i .empty).isEmpty = false) →
        find_handle ts = ts.length) ∧
    (∀ (α : Type) (ts : List (Task α)) (f : MFuture α),
        (coopSpawn ts f).1 = find_handle ts) ∧
    coopSpawn ([] : List (Task Nat)) ⟨1, 10⟩ = (0, [Task.future ⟨0, 10⟩]) ∧
    coopSpawn [Task.future ⟨0, (10 : Nat)⟩] ⟨5, 20⟩
      = (1, [Task.output 10, Task.future ⟨4, 20⟩]) ∧
    joinPollCoop [Task.output (10 : Nat), Task.future ⟨4, 20⟩] 0
      = (some 10, [Task.empty, Task.future ⟨4, 20⟩]) ∧
    (coopSpawn [Task.empty, Task.future ⟨4, (20 : Nat)⟩] ⟨9, 30⟩).1 = 0 := by
  refine ⟨fun α ts i h => find_handle_not_empty ts i h,
    fun α ts h => find_handle_empty_at ts h,
    fun α ts h => find_handle_full ts h,
    fun α ts f => rfl, rfl, rfl, rfl, rfl⟩

/-- Witness for C7 at concrete tables. -/
theorem c7_spawn_first_fit_reuse_witness :
    (([Task.output (5 : Nat), Task.empty].getD 0 Task.empty).isEmpty
      = false) ∧
    (([Task.output (5 : Nat), Task.empty].getD
        (find_handle [Task.output (5 : Nat), Task.empty])
        Task.empty).isEmpty = true) ∧
    find_handle [Task.output (5 : Nat)] = [Task.output (5 : Nat)].length :=
  ⟨c7_spawn_first_fit_reuse.1 Nat [Task.output 5, Task.empty] 0 (by decide),
   c7_spawn_first_fit_reuse.2.1 Nat [Task.output 5, Task.empty] (by decide),
   c7_spawn_first_fit_reuse.2.2.1 Nat [Task.output 5] (by decide)⟩

/-- C8: the threaded wake is idempotent until consumed: composing it
with itself is the same function on the executor state, flag and
notification count alike, and invoking it any positive number of times
between two polls equals invoking it once. -/
theorem c8_threaded_wake_idempotent :
    Exec.wake ∘ Exec.wake = Exec.wake ∧
    ∀ (n : Nat) (s : Exec), Exec.wake^[n + 1] s = Exec.wake s := by
  constructor
  · funext s
    exact wake_wake s
  · intro n
    induction n with
    | zero => intro s; simp
    | succ m ih =>
      intro s
      rw [Function.iterate_succ_apply, ih (Exec.wake s), wake_wake]

/-- Witness for C8: three wakes from the fresh executor state equal
one. -/
theorem c8_threaded_wake_idempotent_witness :
    Exec.wake^[3] Exec.new = Exec.wake Exec.new :=
  c8_threaded_wake_idempotent.2 2 Exec.new

/-- C9: a poll of a threaded JoinHandle that finds no output stores
the wake capability of the polling context in the cell and answers
Pending; the completion step of the worker thread stores the output in
the cell and takes the saved capability, which is exactly the one it
invokes when present. -/
theorem c9_threaded_join_waker_protocol :
    (∀ (α ω : Type) (c : SharedCell α ω) (w : ω), c.output = none →
        joinPollThreaded c w = (none, { output := none, waker := some w })) ∧
    (∀ (α ω : Type) (c : SharedCell α ω) (v : α),
        workerFinish c v = ({ output := some v, waker := none }, c.waker)) := by
  constructor
  · intro α ω c w h
    simp [joinPollThreaded, h]
  · intro α ω c v
    rfl

/-- Witness for C9 at a concrete cell. -/
theorem c9_threaded_join_waker_protocol_witness :
    joinPollThreaded ({ output := none, waker := none } : SharedCell Nat Nat) 7
      = (none, { output := none, waker := some 7 }) ∧
    workerFinish ({ output := none, waker := some 7 } : SharedCell Nat Nat) 42
      = ({ output := some 42, waker := none }, some 7) :=
  ⟨c9_threaded_join_waker_protocol.1 Nat Nat _ 7 rfl,
   c9_threaded_join_waker_protocol.2 Nat Nat _ 42⟩

/-- C10: Exec::new starts the ready flag at true, so when the first
poll answers Pending the execute loop consumes the pre-set flag
without blocking and immediately polls a second time even though no
wake has been invoked; the first possible cvar.wait comes only after
the second Pending poll. -/
theorem c10_preset_flag_defers_first_park :
    Exec.new.state = true ∧
    (∀ (α : Type) (n : Nat) (v : α),
        (Exec.execute ⟨n + 1, v⟩ Exec.new.state).2
          = ExecEvent.polled false :: (Exec.execute ⟨n, v⟩ false).2) ∧
    (∀ (α : Type) (v : α),
        ((Exec.execute ⟨1, v⟩ Exec.new.state).2).take 2
          = [ExecEvent.polled false, ExecEvent.polled true]) ∧
    (∀ (α : Type) (n : Nat) (v : α),
        ((Exec.execute ⟨n + 2, v⟩ Exec.new.state).2).take 2
          = [ExecEvent.polled false, ExecEvent.polled false]) ∧
    (∀ (α : Type) (n : Nat) (v : α),
        ((Exec.execute ⟨n + 2, v⟩ Exec.new.state).2).take 3
          = [ExecEvent.polled false, ExecEvent.polled false,
             ExecEvent.parked]) := by
  refine ⟨rfl, ?_, ?_, ?_, ?_⟩
  · intro α n v
    simp [Exec.execute, execLoop, Exec.new]
  · intro α v
    rfl
  · intro α n v
    simp [Exec.execute, execLoop, Exec.new]
  · intro α n v
    simp [Exec.execute, execLoop, Exec.new]

/-- Witness for C10 at a concrete future. -/
theorem c10_preset_flag_defers_first_park_witness :
    ((Exec.execute ⟨1, (5 : Nat)⟩ Exec.new.state).2).take 2
      = [ExecEvent.polled false, ExecEvent.polled true] :=
  c10_preset_flag_defers_first_park.2.2.1 Nat 5

end Pasts
